import Mathlib

/-!
Shallow embedding of the memory-trait resolution engine of
`src/src/tsar_private.cpp` (Traits Static Analyzer, private variable
recognition pass), together with proofs about the embedded operations.

Machine integers are modelled as `Nat`; the trait codes are 7-bit values so
all bitwise operations stay below `2^7` and no overflow is possible.
-/

namespace TsarPrivate

/-! ## Trait lattice (`tsar::detail::TraitId`, tsar_private.cpp lines 105-132)

The canonical 7-bit codes, written in the source as binary literals
(`1111111_b` and so on). -/

namespace TraitId

/-- `NoAccess = 1111111_b` -/
def NoAccess : Nat := 127

/-- `Readonly = 1111011_b` -/
def Readonly : Nat := 123

/-- `Shared = 1111001_b` -/
def Shared : Nat := 121

/-- `Private = 0111111_b` -/
def Private : Nat := 63

/-- `FirstPrivate = 0111011_b` -/
def FirstPrivate : Nat := 59

/-- `SecondToLastPrivate = 0101111_b` -/
def SecondToLastPrivate : Nat := 47

/-- `LastPrivate = 0011111_b` -/
def LastPrivate : Nat := 31

/-- `DynamicPrivate = 0001111_b` -/
def DynamicPrivate : Nat := 15

/-- `Dependency = 0000001_b` -/
def Dependency : Nat := 1

/-- `AddressAccess = 1111110_b` -/
def AddressAccess : Nat := 126

end TraitId

/-- `operator~(TraitId)`: the source computes `~What & NoAccess` "to avoid
reversal of unused bits"; on 7-bit codes this is XOR with `1111111`. -/
def tcompl (x : Nat) : Nat := (x % 128) ^^^ 127

/-- The 10-entry table of canonical trait codes from the `TraitId` enum. -/
def traitTable : List Nat :=
  [TraitId.NoAccess, TraitId.Readonly, TraitId.Shared, TraitId.Private,
   TraitId.FirstPrivate, TraitId.SecondToLastPrivate, TraitId.LastPrivate,
   TraitId.DynamicPrivate, TraitId.Dependency, TraitId.AddressAccess]

/-! ## `TraitImp` (tsar_private.cpp lines 135-153)

A mutable holder of one trait code (`mId`, default-initialized to
`NoAccess`).  Its mutating operators are embedded as state-passing
functions on the stored code. -/

namespace TraitImp

/-- `TraitImp::operator&=`: `mId &= With.mId`. -/
def narrow (x y : Nat) : Nat := x &&& y

/-- `TraitImp::operator|=` (tsar_private.cpp lines 144-147).  The body of
the source operator is the statement `mId != With.mId;` — an equality
comparison whose result is discarded — so the stored code is left
unchanged.  This embedding reproduces that behaviour exactly. -/
def widen (x y : Nat) : Nat := x

/-- `TraitImp::operator!`: `!mId`. -/
def isEmptyTrait (x : Nat) : Bool := x == 0

end TraitImp

/-! ## Descriptor decoding (`PrivateRecognitionPass::toDescriptor`,
tsar_private.cpp lines 801-847)

`DependencyDescriptor` is a set of trait labels; it is embedded as a
structure of booleans, one per label used by the pass. -/

structure DependencyDescriptor where
  noAccess : Bool := false
  readonly : Bool := false
  shared : Bool := false
  isPrivate : Bool := false
  firstPrivate : Bool := false
  secondToLastPrivate : Bool := false
  lastPrivate : Bool := false
  dynamicPrivate : Bool := false
  flow : Bool := false
  anti : Bool := false
  output : Bool := false
  addressAccess : Bool := false
  explicitAccess : Bool := false
deriving DecidableEq, Repr

/-- The `switch (T | ~(~Readonly | Shared) | ~AddressAccess)` statement of
`toDescriptor`.  Cases `FirstPrivate & LastPrivate`,
`FirstPrivate & SecondToLastPrivate` and `FirstPrivate & DynamicPrivate`
fall through into the following case in the source, which is written out
explicitly here.  The `default` branch is `llvm_unreachable` (a fatal
error), embedded as `none`. -/
def decodeSwitch (v : Nat) (d : DependencyDescriptor) :
    Option DependencyDescriptor :=
  if v = TraitId.NoAccess then some {d with noAccess := true}
  else if v = TraitId.Readonly then some {d with readonly := true}
  else if v = TraitId.Private then some {d with isPrivate := true}
  else if v = TraitId.FirstPrivate then some {d with firstPrivate := true}
  else if v = TraitId.FirstPrivate &&& TraitId.LastPrivate then
    some {d with firstPrivate := true, lastPrivate := true}
  else if v = TraitId.LastPrivate then some {d with lastPrivate := true}
  else if v = TraitId.FirstPrivate &&& TraitId.SecondToLastPrivate then
    some {d with firstPrivate := true, secondToLastPrivate := true}
  else if v = TraitId.SecondToLastPrivate then
    some {d with secondToLastPrivate := true}
  else if v = TraitId.FirstPrivate &&& TraitId.DynamicPrivate then
    some {d with firstPrivate := true, dynamicPrivate := true}
  else if v = TraitId.DynamicPrivate then some {d with dynamicPrivate := true}
  else none

/-- `PrivateRecognitionPass::toDescriptor(T, TraitNumber)` without the
statistic counters (the `Num*` STATISTIC globals are write-only outputs).
Returns `none` exactly when the source reaches `llvm_unreachable`. -/
def toDescriptor (T : Nat) : Option DependencyDescriptor :=
  let d : DependencyDescriptor :=
    if T &&& tcompl TraitId.AddressAccess = 0 then {addressAccess := true}
    else {}
  if (T ||| tcompl TraitId.AddressAccess) = TraitId.Dependency then
    some {d with flow := true, anti := true, output := true}
  else
    match decodeSwitch
        (T ||| tcompl (tcompl TraitId.Readonly ||| TraitId.Shared) |||
         tcompl TraitId.AddressAccess) d with
    | none => none
    | some d2 =>
      if T &&& tcompl (tcompl TraitId.Readonly ||| TraitId.Shared) = 0 then
        some {d2 with shared := true}
      else some d2

/-! ## Per-location classification
(`PrivateRecognitionPass::resolveAccesses`, tsar_private.cpp lines 430-469) -/

/-- The def/use/liveness/dependence facts consulted for one explicitly
accessed location `Loc` with estimate memory `Base`:
`DefUse.hasUse(Loc)`, `DefUse.hasDef(Loc)`, `DefUse.hasMayDef(Loc)`,
`LS.getOut().overlap(Loc)`, `LatchDefs.MustReach.contain(Loc)`,
`ExitingDefs.MayReach.overlap(Loc)` and `Deps.count(Base)`. -/
structure LocFacts where
  hasUse : Bool
  hasDef : Bool
  hasMayDef : Bool
  liveOverlap : Bool
  latchMustContain : Bool
  exitMayOverlap : Bool
  hasDep : Bool
deriving DecidableEq, Repr

/-- The update of `CurrTraits` performed by `resolveAccesses` for one
explicitly accessed location, starting from the current trait code `cur`
(a fresh entry is seeded with `TraitImp()`, i.e. `NoAccess`). -/
def resolveAccessTrait (cur : Nat) (f : LocFacts) : Nat :=
  let sharedTrait : Nat := if !f.hasDep then TraitId.Shared else TraitId.NoAccess
  if !f.hasUse then
    if !f.liveOverlap then
      cur &&& (TraitId.Private &&& sharedTrait)
    else if f.hasDef then
      cur &&& (TraitId.LastPrivate &&& sharedTrait)
    else if f.latchMustContain && !f.exitMayOverlap then
      cur &&& (TraitId.SecondToLastPrivate &&& TraitId.FirstPrivate &&&
        sharedTrait)
    else
      cur &&& (TraitId.DynamicPrivate &&& TraitId.FirstPrivate &&& sharedTrait)
  else if (f.hasMayDef || f.hasDef) && sharedTrait = TraitId.NoAccess then
    cur &&& TraitId.Dependency
  else
    cur &&& TraitId.Readonly

/-! ## Estimate memory regions and first-private finalization
(`PrivateRecognitionPass::checkFirstPrivate`, tsar_private.cpp lines 626-686)

An `EstimateMemory` region carries a list of ambiguous pointers (iterated
by `for (auto *Ptr : EM)`, here plain identifiers) and child regions; the
source walks `df_begin(EM) .. df_end(EM)` over descendants. -/

inductive EMem where
  | mk (ptrs : List Nat) (children : List EMem)

def EMem.ptrs : EMem → List Nat
  | .mk ps _ => ps

def EMem.children : EMem → List EMem
  | .mk _ cs => cs

def EMem.isLeaf (e : EMem) : Bool := e.children.isEmpty

mutual

/-- Depth-first traversal from a region, the region itself included. -/
def EMem.dfNodes : EMem → List EMem
  | .mk ps cs => .mk ps cs :: EMem.dfList cs

def EMem.dfList : List EMem → List EMem
  | [] => []
  | e :: es => EMem.dfNodes e ++ EMem.dfList es

end

/-- The leaves of a region, in traversal order. -/
def EMem.leaves (em : EMem) : List EMem :=
  (EMem.dfNodes em).filter EMem.isLeaf

/-- The local lambda `isAmbiguousCover` of `checkFirstPrivate`: every
ambiguous pointer of the region is contained in the reach set (reach sets
are abstracted as predicates over pointers). -/
def ambiguousCover (reach : Nat → Bool) (e : EMem) : Bool := e.ptrs.all reach

/-- The reach-set test a descendant leaf must pass to enter `DefLeafs`:
`ExitingDefs.MustReach` for a `LastPrivate` descriptor,
`LatchDefs.MustReach` or `ExitingDefs.MustReach` for a
`SecondToLastPrivate` one. -/
def leafReachTest (latchMust exitMust : Nat → Bool) (d : DependencyDescriptor)
    (e : EMem) : Bool :=
  if d.lastPrivate then ambiguousCover exitMust e
  else if d.secondToLastPrivate then
    ambiguousCover latchMust e || ambiguousCover exitMust e
  else true

/-- The `DefLeafs` vector collected by `checkFirstPrivate`: the leaves of
the region's depth-first traversal that pass the reach-set test. -/
def defLeafs (latchMust exitMust : Nat → Bool) (d : DependencyDescriptor)
    (em : EMem) : List EMem :=
  (EMem.dfNodes em).filter
    (fun e => e.isLeaf && leafReachTest latchMust exitMust d e)

/-- `PrivateRecognitionPass::checkFirstPrivate`.  Modelled from the spec:
the leaf-coverage test `cover(AliasTree, Numbers, EM, DefLeafs...)` lives
in `MemoryCoverage.h`, which is not part of the analysed sources; the spec
describes it only as detecting "full coverage across possibly several
leaves" under a node numbering, so it is kept abstract as the parameter
`cover`.  The function returns the updated `(TraitImp, Dptr)` pair. -/
def checkFirstPrivate (cover : EMem → List EMem → Bool)
    (latchMust exitMust : Nat → Bool) (em : EMem) (t : Nat)
    (d : DependencyDescriptor) : Nat × DependencyDescriptor :=
  if d.firstPrivate || (!d.lastPrivate && !d.secondToLastPrivate) then (t, d)
  else if cover em (defLeafs latchMust exitMust d em) then (t, d)
  else (t &&& TraitId.FirstPrivate, {d with firstPrivate := true})

/-- The node-level result stored by `storeResults` (tsar_private.cpp lines
738-752) when the working list holds exactly one memory entry and no
unknown entry: the decode of the entry's trait, run through
`checkFirstPrivate`.  (The `ExplicitAccess` flag and the insertion of the
per-memory trait copy do not change the decoded label set.) -/
def storeResultSingle (cover : EMem → List EMem → Bool)
    (latchMust exitMust : Nat → Bool) (em : EMem) (t : Nat) :
    Option (Nat × DependencyDescriptor) :=
  match toDescriptor t with
  | none => none
  | some d => some (checkFirstPrivate cover latchMust exitMust em t d)

/-! ## Combined node results (`PrivateRecognitionPass::storeResults`,
tsar_private.cpp lines 758-798) -/

/-- The final narrowing of `CombinedTrait`:
`CombinedTrait &= (CombinedTrait | ~AddressAccess) == Readonly ? Readonly :
(CombinedTrait | ~AddressAccess) == Shared ? Shared : Dependency;`. -/
def selectCombined (C : Nat) : Nat :=
  C &&& (if (C ||| tcompl TraitId.AddressAccess) = TraitId.Readonly then
           TraitId.Readonly
         else if (C ||| tcompl TraitId.AddressAccess) = TraitId.Shared then
           TraitId.Shared
         else TraitId.Dependency)

/-- `CombinedTrait`: the narrow of all traits in the working list
(memory entries first, then unknown entries), seeded with the
default-initialized `TraitImp()`, i.e. `NoAccess`. -/
def combinedTrait (traits unknownTraits : List Nat) : Nat :=
  (traits ++ unknownTraits).foldl (fun a t => TraitImp.narrow a t)
    TraitId.NoAccess

/-- The node-level descriptor stored by `storeResults` on the combined
path (working list with several memory entries, or any unknown entry):
`*NodeTraitItr = toDescriptor(CombinedTrait, N)`, with `ExplicitAccess`
re-set afterwards when it was detected. -/
def storeResultsCombined (traits unknownTraits : List Nat) (ea : Bool) :
    Option DependencyDescriptor :=
  (toDescriptor (selectCombined (combinedTrait traits unknownTraits))).map
    (fun d => if ea then {d with explicitAccess := true} else d)

/-- True when a decode result exists and carries none of the five
private-family labels. -/
def noPrivLabels : Option DependencyDescriptor → Bool
  | none => false
  | some d => !d.isPrivate && !d.firstPrivate && !d.lastPrivate &&
      !d.secondToLastPrivate && !d.dynamicPrivate

/-! ## Dependence collection
(`PrivateRecognitionPass::insertDependence` and
`PrivateRecognitionPass::collectDependencies`,
tsar_private.cpp lines 261-394) -/

/-- `llvm::Dependence::DVEntry` direction values compared against by
`insertDependence` (`EQ`, `ALL`, `LT`, `LE`); the remaining values of the
LLVM enumeration are included for completeness. -/
inductive Direction where
  | noDir
  | lt
  | eq
  | gt
  | le
  | ge
  | neq
  | all
deriving DecidableEq, Repr, Fintype

/-- The `Descriptor` of `DependenceImp`: which of the Flow, Anti and
Output traits a classified dependence sets. -/
structure DepKinds where
  flow : Bool := false
  anti : Bool := false
  output : Bool := false
deriving DecidableEq, Repr

/-- The direction-based classification performed by `insertDependence`
after its `EQ` early return (tsar_private.cpp lines 272-287): an output
dependence sets Output only; otherwise direction `ALL` sets Flow and Anti;
otherwise a flow dependence sets Flow for direction `LT`/`LE` and Anti
else, an anti dependence sets Anti for `LT`/`LE` and Flow else, and a
dependence of unknown kind sets Flow and Anti. -/
def classifyDptr (isFlow isAnti isOutput : Bool) (dir : Direction) : DepKinds :=
  if isOutput then { output := true }
  else if dir = .all then { flow := true, anti := true }
  else if isFlow then
    if dir = .lt ∨ dir = .le then { flow := true } else { anti := true }
  else if isAnti then
    if dir = .lt ∨ dir = .le then { anti := true } else { flow := true }
  else { flow := true, anti := true }

/-- Modelled from the spec sentence behind claim C4: Flow and Anti are
both set when the direction spans ALL; otherwise Flow is set when the
direction says the source executes before the destination (`LT`/`LE`) and
Anti otherwise; Output is set whenever the oracle reports an output
dependence. -/
def claimClassify (isOutput : Bool) (dir : Direction) : DepKinds :=
  if dir = .all then { flow := true, anti := true, output := isOutput }
  else { flow := dir = .lt ∨ dir = .le,
         anti := ¬(dir = .lt ∨ dir = .le),
         output := isOutput }

/-- `trait::Dependence::Flag`, a bitmask embedded as one boolean per
flag bit. -/
structure Flag where
  may : Bool := false
  unknownDistance : Bool := false
  loadStoreCause : Bool := false
  callCause : Bool := false
  unknownCause : Bool := false
  headerAccess : Bool := false
deriving DecidableEq, Repr

/-- Bitwise OR of two flag masks. -/
def Flag.join (a b : Flag) : Flag :=
  { may := a.may || b.may
    unknownDistance := a.unknownDistance || b.unknownDistance
    loadStoreCause := a.loadStoreCause || b.loadStoreCause
    callCause := a.callCause || b.callCause
    unknownCause := a.unknownCause || b.unknownCause
    headerAccess := a.headerAccess || b.headerAccess }

/-- Per-trait state inside `DependenceImp`: the `mDptr` bit, the
accumulated `mFlags` entry and the `mDists` distance set (a list of
symbolic-distance identifiers standing for `const SCEV *` values). -/
structure KindState where
  isSet : Bool := false
  flags : Flag := {}
  dists : List Nat := []
deriving DecidableEq, Repr

/-- `DependenceImp::UpdateFunctor::operator()` for one trait
(tsar_private.cpp lines 176-190): set the descriptor bit; add
`UnknownDistance` to the update's flag when the distance is null;
`mFlags |= mFlag`; then insert the distance if the accumulated flags have
no `UnknownDistance`, and clear the distance set otherwise. -/
def updateKind (s : KindState) (f : Flag) (dist : Option Nat) : KindState :=
  let f' := if dist.isNone then {f with unknownDistance := true} else f
  let flags' := s.flags.join f'
  { isSet := true
    flags := flags'
    dists :=
      if !flags'.unknownDistance then
        match dist with
        | some v => v :: s.dists
        | none => s.dists
      else [] }

/-- `DependenceImp`: per-location aggregated dependence state, one
`KindState` per trait (Flow, Anti, Output). -/
structure DependenceImp where
  flow : KindState := {}
  anti : KindState := {}
  output : KindState := {}
deriving DecidableEq, Repr

/-- A freshly constructed `DependenceImp` (`new DependenceImp`). -/
def DependenceImp.init : DependenceImp := {}

/-- `DependenceImp::update(Dptr, F, Dist)`: run the update functor for
every trait set in `Dptr`. -/
def DependenceImp.update (s : DependenceImp) (dk : DepKinds) (f : Flag)
    (dist : Option Nat) : DependenceImp :=
  { flow := if dk.flow then updateKind s.flow f dist else s.flow
    anti := if dk.anti then updateKind s.anti f dist else s.anti
    output := if dk.output then updateKind s.output f dist else s.output }

/-- The per-loop dependence map `Deps`, keyed by the estimate memory
location (`mAliasTree->find(Loc)`, here an identifier). -/
def DepMap := Nat → Option DependenceImp

/-- The `insert` lambda of `insertDependence`: `try_emplace` the location,
allocate a fresh `DependenceImp` when absent, and run `update`. -/
def depMapUpdate (m : DepMap) (k : Nat) (dk : DepKinds) (f : Flag)
    (dist : Option Nat) : DepMap :=
  let cur := (m k).getD DependenceImp.init
  fun j => if j = k then some (cur.update dk f dist) else m j

/-- `PrivateRecognitionPass::insertDependence`: return unchanged when the
direction at the loop depth is `EQ` (loop-independent dependence);
otherwise classify and update the descriptors of both endpoint
locations with `LoadStoreCause | Flag`. -/
def insertDependence (src dst : Nat) (isFlow isAnti isOutput : Bool)
    (dir : Direction) (flag : Flag) (dist : Option Nat) (deps : DepMap) :
    DepMap :=
  if dir = .eq then deps
  else
    let dk := classifyDptr isFlow isAnti isOutput dir
    let f := {flag with loadStoreCause := true}
    depMapUpdate (depMapUpdate deps src dk f dist) dst dk f dist

/-- The result of `mDepInfo->depends(Src, Dst, true)` for one pair of
load/store instructions: its kind flags, the direction and the distance
at the loop's depth. -/
structure OracleDep where
  isFlow : Bool
  isAnti : Bool
  isOutput : Bool
  dir : Direction
  dist : Option Nat
deriving DecidableEq, Repr

/-- The body of the inner loop of `collectDependencies` for one pair of
load/store instructions (tsar_private.cpp lines 370-391): no oracle
answer leaves the map unchanged; an input-only answer (neither anti nor
flow nor output) is ignored; otherwise `insertDependence` runs. -/
def processPair (src dst : Nat) (oracle : Option OracleDep) (flag : Flag)
    (deps : DepMap) : DepMap :=
  match oracle with
  | none => deps
  | some d =>
    if !d.isAnti && !d.isFlow && !d.isOutput then deps
    else insertDependence src dst d.isFlow d.isAnti d.isOutput d.dir flag
      d.dist deps

/-- The direction test `Dir == LT || Dir == LE` ("source executes before
the destination"). -/
def srcBeforeDst (dir : Direction) : Bool := dir == .lt || dir == .le

/-- The amended claim C4 written as a function of the oracle answer: an
output dependence sets Output and only Output; otherwise direction ALL
sets both Flow and Anti; otherwise a flow dependence sets Flow when the
source executes before the destination (LT/LE) and Anti when it does
not, an anti dependence sets Anti when the source executes before the
destination and Flow when it does not, and a dependence of unknown kind
sets Flow and Anti. -/
def amendedClassify (isFlow isAnti isOutput : Bool) (dir : Direction) :
    DepKinds :=
  if isOutput then { output := true }
  else if dir = .all then { flow := true, anti := true }
  else if isFlow then
    if srcBeforeDst dir then { flow := true } else { anti := true }
  else if isAnti then
    if srcBeforeDst dir then { anti := true } else { flow := true }
  else { flow := true, anti := true }

/-- Fold a sequence of `DependenceImp::update` calls over a freshly
allocated descriptor. -/
def applyUpdates (us : List (DepKinds × Flag × Option Nat)) : DependenceImp :=
  us.foldl (fun s u => s.update u.1 u.2.1 u.2.2) DependenceImp.init

/-- The distance-set invariant for one trait's state. -/
def kindInv (s : KindState) : Prop :=
  s.flags.unknownDistance = true → s.dists = []

/-! ## Trait propagation over the alias-node tree
(`PrivateRecognitionPass::propagateTraits`, tsar_private.cpp lines
567-624)

The escalation loop at the end of `propagateTraits` walks, for every node
of the explicit-access coverage set, the depth-first trees of its
children, and forces Flow, Anti and Output on every stored result other
than `NoAccess`. -/

inductive ATree where
  | mk (idn : Nat) (children : List ATree)

def ATree.idOf : ATree → Nat
  | .mk i _ => i

def ATree.childrenOf : ATree → List ATree
  | .mk _ cs => cs

mutual

/-- The nodes visited by `df_begin(&Child) .. df_end(&Child)`, the root
included, in depth-first order. -/
def ATree.preorder : ATree → List ATree
  | .mk i cs => .mk i cs :: ATree.preorderList cs

def ATree.preorderList : List ATree → List ATree
  | [] => []
  | t :: ts => ATree.preorder t ++ ATree.preorderList ts

end

/-- The strict descendants of a node: the depth-first trees of its
children. -/
def strictDesc (n : ATree) : List ATree := ATree.preorderList n.childrenOf

/-- The per-loop `DependencySet DS`, keyed by alias node (here by the
node's identifier). -/
def DSMap := Nat → Option DependencyDescriptor

/-- One step of the escalation loop:
`auto I = DS.find(Descendant); if (I != DS.end() && !I->is<NoAccess>())
I->set<Flow, Anti, Output>();`. -/
def escalateOne (m : DSMap) (i : Nat) : DSMap :=
  fun j =>
    if j = i then
      match m i with
      | some t =>
        if t.noAccess = false then
          some {t with flow := true, anti := true, output := true}
        else some t
      | none => none
    else m j

/-- The escalation over one child's depth-first tree. -/
def escalateChild (m : DSMap) (c : ATree) : DSMap :=
  (ATree.preorder c).foldl (fun m d => escalateOne m d.idOf) m

/-- The escalation over all children of one coverage node. -/
def escalateNode (m : DSMap) (n : ATree) : DSMap :=
  n.childrenOf.foldl escalateChild m

/-- The full escalation loop of `propagateTraits` over the coverage set
computed by `explicitAccessCoverage`.  Modelled from the spec:
`explicitAccessCoverage` lives in `MemoryCoverage.h`, which is not part
of the analysed sources; the spec describes its output only as the node
set whose explicit accesses topologically cover every strict descendant's
accesses, so the coverage set is kept abstract as a parameter. -/
def escalate (m : DSMap) (coverage : List ATree) : DSMap :=
  coverage.foldl escalateNode m

/-- The stored result at `i` is either absent, `NoAccess`, or carries
Flow, Anti and Output. -/
def good (m : DSMap) (i : Nat) : Prop :=
  ∀ t, m i = some t → t.noAccess = false →
    t.flow = true ∧ t.anti = true ∧ t.output = true

end TsarPrivate

namespace TsarPrivate

/-! ## Theorems for claims C1, C3, C9 -/

/-- C1: for every TraitValue holding code `x` and every code `y`, executing
the widen operation `a |= y` is claimed to update `a` to `x | y`.  The
source operator instead evaluates `mId != With.mId` and discards the
result, so `a` keeps `x`.  At `x = Dependency`, `y = Readonly` the stored
code stays `0000001` although `x | y = 1111011` differs from it. -/
theorem widen_noop_at_dependency_readonly :
    TraitImp.widen TraitId.Dependency TraitId.Readonly = TraitId.Dependency ∧
    TraitId.Dependency ||| TraitId.Readonly = TraitId.Readonly ∧
    TraitId.Dependency ≠ TraitId.Readonly := by
  refine ⟨rfl, by decide, by decide⟩

/-- C3 counterexample: the 10-entry table is not closed under bitwise AND:
`Readonly & LastPrivate = 0011011` is not one of the canonical codes. -/
theorem traitTable_not_closed_under_and :
    (TraitId.Readonly &&& TraitId.LastPrivate) ∉ traitTable := by decide

/-- All values obtainable as the AND of two canonical codes: the table
itself together with the composite codes (`FirstPrivate & LastPrivate`
and the like) that the decode switch of `toDescriptor` recognises, plus
the compositions with `Shared`, `AddressAccess` and the all-zero code. -/
def andClosureTable : List Nat :=
  traitTable ++ [43, 27, 11, 122, 57, 41, 25, 9, 120, 62, 58, 46, 30, 14, 0]

/-- C3 amended: ANDing two canonical codes does not always stay inside the
10-entry table, but it always lands in the finite AND-closure
`andClosureTable` of that table. -/
theorem traitTable_and_mem_closure :
    ∀ a ∈ traitTable, ∀ b ∈ traitTable, (a &&& b) ∈ andClosureTable := by
  decide

/-- Witness for `traitTable_and_mem_closure` at
`a = Readonly`, `b = LastPrivate`. -/
theorem traitTable_and_mem_closure_witness :
    TraitId.Readonly ∈ traitTable ∧ TraitId.LastPrivate ∈ traitTable ∧
    (TraitId.Readonly &&& TraitId.LastPrivate) ∈ andClosureTable :=
  ⟨by decide, by decide,
    traitTable_and_mem_closure TraitId.Readonly (by decide)
      TraitId.LastPrivate (by decide)⟩

/-- Any chain of narrows starting from an accumulator `≤ 1` stays `≤ 1`. -/
theorem foldl_and_le (xs : List Nat) (a : Nat) :
    xs.foldl (fun acc t => acc &&& t) a ≤ a := by
  induction xs generalizing a with
  | nil => exact Nat.le_refl a
  | cons x xs ih =>
    exact Nat.le_trans (ih (a &&& x)) (Nat.and_le_left)

/-- C9: `Dependency & x` is `Dependency` or the all-zero code for every
canonical `x`; consequently a trait narrowed to `Dependency` can never be
narrowed back to any read-only, shared or private classification by
further narrows with canonical codes. -/
theorem dependency_narrow_absorbing (xs : List Nat)
    (h : ∀ x ∈ xs, x ∈ traitTable) :
    (∀ x ∈ traitTable, TraitImp.narrow TraitId.Dependency x = TraitId.Dependency ∨
      TraitImp.narrow TraitId.Dependency x = 0) ∧
    (xs.foldl (fun acc t => TraitImp.narrow acc t) TraitId.Dependency = TraitId.Dependency ∨
     xs.foldl (fun acc t => TraitImp.narrow acc t) TraitId.Dependency = 0) ∧
    xs.foldl (fun acc t => TraitImp.narrow acc t) TraitId.Dependency ∉
      [TraitId.Readonly, TraitId.Shared, TraitId.Private, TraitId.FirstPrivate,
       TraitId.SecondToLastPrivate, TraitId.LastPrivate, TraitId.DynamicPrivate] := by
  have hle : xs.foldl (fun acc t => TraitImp.narrow acc t) TraitId.Dependency ≤ 1 :=
    foldl_and_le xs 1
  have h01 := Nat.le_one_iff_eq_zero_or_eq_one.mp hle
  refine ⟨by decide, ?_, ?_⟩
  · rcases h01 with h0 | h1
    · exact Or.inr h0
    · exact Or.inl h1
  · rcases h01 with h0 | h1
    · rw [h0]; decide
    · rw [h1]; decide

/-- Witness for `dependency_narrow_absorbing` at `xs = [Private, Readonly]`. -/
theorem dependency_narrow_absorbing_witness :
    ((∀ x ∈ [TraitId.Private, TraitId.Readonly], x ∈ traitTable)) ∧
    ([TraitId.Private, TraitId.Readonly].foldl
        (fun acc t => TraitImp.narrow acc t) TraitId.Dependency = TraitId.Dependency ∨
     [TraitId.Private, TraitId.Readonly].foldl
        (fun acc t => TraitImp.narrow acc t) TraitId.Dependency = 0) :=
  ⟨by decide,
    (dependency_narrow_absorbing [TraitId.Private, TraitId.Readonly]
      (by decide)).2.1⟩

/-! ## Theorems for claim C2 -/

/-- C2 counterexample: a location that is defined in the loop, never used,
not live after the loop and has no recorded dependence gets the trait
`NoAccess & (Private & Shared) = 0111001`, and the engine's final decode
of that trait carries the labels FirstPrivate and Shared — not Private as
the claim states. -/
theorem private_scenario_decodes_without_private :
    (storeResultSingle (fun _ _ => true) (fun _ => true) (fun _ => true)
        (EMem.mk [] [])
        (resolveAccessTrait TraitId.NoAccess
          ⟨false, true, false, false, false, false, false⟩)).map
      (fun p => (p.2.isPrivate, p.2.firstPrivate, p.2.shared)) =
      some (false, true, true) := by
  rfl

/-- C2 amended: for every explicitly accessed location that is never used
in the loop, not live after it, and has no recorded dependence, the trait
resolved from a fresh `NoAccess` seed is `Private & Shared = 0111001`, and
the final decoded label set produced for it by the singleton
`storeResults` path is exactly {FirstPrivate, Shared} (in particular the
Private label is absent), for any coverage test and reach sets. -/
theorem resolveAccesses_private_scenario (f : LocFacts)
    (cover : EMem → List EMem → Bool) (latchMust exitMust : Nat → Bool)
    (em : EMem) (h1 : f.hasUse = false) (h2 : f.liveOverlap = false)
    (h3 : f.hasDep = false) :
    resolveAccessTrait TraitId.NoAccess f =
      (TraitId.Private &&& TraitId.Shared) ∧
    storeResultSingle cover latchMust exitMust em
        (resolveAccessTrait TraitId.NoAccess f) =
      some (TraitId.Private &&& TraitId.Shared,
        { firstPrivate := true, shared := true }) := by
  have ht : resolveAccessTrait TraitId.NoAccess f = 57 := by
    simp only [resolveAccessTrait, h1, h2, h3, Bool.not_false, if_true,
      Bool.false_eq_true, if_false, ite_true, ite_false]
    decide
  refine ⟨by rw [ht]; decide, ?_⟩
  rw [ht]
  rfl

/-- Witness for `resolveAccesses_private_scenario`. -/
theorem resolveAccesses_private_scenario_witness :
    (LocFacts.hasUse ⟨false, true, false, false, false, false, false⟩ = false) ∧
    (storeResultSingle (fun _ _ => false) (fun _ => false) (fun _ => false)
        (EMem.mk [] [])
        (resolveAccessTrait TraitId.NoAccess
          ⟨false, true, false, false, false, false, false⟩) =
      some (TraitId.Private &&& TraitId.Shared,
        { firstPrivate := true, shared := true })) :=
  ⟨rfl,
    (resolveAccesses_private_scenario
      ⟨false, true, false, false, false, false, false⟩
      (fun _ _ => false) (fun _ => false) (fun _ => false)
      (EMem.mk [] []) rfl rfl rfl).2⟩

/-! ## Theorems for claim C10 -/

/-- Decoding `selectCombined C` never yields a private-family label, for
any 7-bit combined trait. -/
theorem selectCombined_decode_no_private :
    ∀ C < 128, noPrivLabels (toDescriptor (selectCombined C)) = true := by
  decide

/-- C10: on the combined path of `storeResults` (taken when the working
list has more than one memory entry or any unknown entry), the node-level
descriptor is the decode of the combined trait narrowed with exactly one
of Readonly, Shared or Dependency, and it never carries a Private,
FirstPrivate, LastPrivate, SecondToLastPrivate or DynamicPrivate label. -/
theorem storeResultsCombined_no_private (traits unknowns : List Nat)
    (ea : Bool) (hcond : 1 < traits.length ∨ unknowns ≠ []) :
    (∃ m ∈ [TraitId.Readonly, TraitId.Shared, TraitId.Dependency],
        storeResultsCombined traits unknowns ea =
          (toDescriptor (combinedTrait traits unknowns &&& m)).map
            (fun d => if ea then {d with explicitAccess := true} else d)) ∧
    (∀ d, storeResultsCombined traits unknowns ea = some d →
      d.isPrivate = false ∧ d.firstPrivate = false ∧ d.lastPrivate = false ∧
      d.secondToLastPrivate = false ∧ d.dynamicPrivate = false) := by
  constructor
  · unfold storeResultsCombined selectCombined
    by_cases h1 : (combinedTrait traits unknowns |||
        tcompl TraitId.AddressAccess) = TraitId.Readonly
    · exact ⟨TraitId.Readonly, by simp, by rw [if_pos h1]⟩
    · by_cases h2 : (combinedTrait traits unknowns |||
          tcompl TraitId.AddressAccess) = TraitId.Shared
      · exact ⟨TraitId.Shared, by simp, by rw [if_neg h1, if_pos h2]⟩
      · exact ⟨TraitId.Dependency, by simp, by rw [if_neg h1, if_neg h2]⟩
  · intro d hd
    have hle : combinedTrait traits unknowns ≤ 127 :=
      foldl_and_le (traits ++ unknowns) 127
    have hC : combinedTrait traits unknowns < 128 := Nat.lt_succ_of_le hle
    have hnp := selectCombined_decode_no_private
      (combinedTrait traits unknowns) hC
    unfold storeResultsCombined at hd
    cases hto : toDescriptor (selectCombined (combinedTrait traits unknowns)) with
    | none => rw [hto] at hd; simp at hd
    | some d0 =>
      rw [hto] at hd
      rw [hto] at hnp
      have hb : (!d0.isPrivate && !d0.firstPrivate && !d0.lastPrivate &&
          !d0.secondToLastPrivate && !d0.dynamicPrivate) = true := hnp
      simp only [Bool.and_eq_true, Bool.not_eq_true'] at hb
      simp only [Option.map_some'] at hd
      obtain ⟨⟨⟨⟨p1, p2⟩, p3⟩, p4⟩, p5⟩ := hb
      have hd' : (if ea then {d0 with explicitAccess := true} else d0) = d :=
        Option.some.inj hd
      subst hd'
      clear hd
      cases ea
      · exact ⟨p1, p2, p3, p4, p5⟩
      · exact ⟨p1, p2, p3, p4, p5⟩

/-! ## Theorems for claim C4 -/

/-- C4 counterexample: for an output dependence whose direction at the
loop's depth is `ALL` (and so is not `EQ`), `insertDependence` sets only
the Output trait, while the claim demands that Flow and Anti also be set
(direction spanning ALL) alongside Output. -/
theorem output_all_direction_sets_output_only :
    Direction.all ≠ Direction.eq ∧
    classifyDptr false false true .all = { output := true } ∧
    claimClassify true .all = { flow := true, anti := true, output := true } ∧
    classifyDptr false false true .all ≠ claimClassify true .all := by
  exact ⟨by decide, by decide, by decide, by decide⟩

/-- C4 amended: for every oracle-returned dependence with direction other
than EQ at the loop's depth, the trait set stored by the descriptor
update is the one described by `amendedClassify`. -/
theorem classifyDptr_follows_amended (f a o : Bool) (dir : Direction)
    (hdir : dir ≠ .eq) :
    classifyDptr f a o dir = amendedClassify f a o dir := by
  revert hdir
  cases dir <;> cases f <;> cases a <;> cases o <;> decide

/-- Witness for `classifyDptr_follows_amended` at a flow dependence with
direction `LT`. -/
theorem classifyDptr_follows_amended_witness :
    Direction.lt ≠ Direction.eq ∧
    classifyDptr true false false .lt = amendedClassify true false false .lt :=
  ⟨by decide, classifyDptr_follows_amended true false false .lt (by decide)⟩

/-! ## Theorems for claim C7 -/

/-- C7: a pair of load/store instructions whose oracle answer has
direction EQ at the loop's depth, or is input-only (neither flow, anti,
nor output), leaves the dependence map unchanged: no descriptor is
created or updated for either endpoint location. -/
theorem processPair_frame (src dst : Nat) (d : OracleDep) (flag : Flag)
    (deps : DepMap)
    (h : d.dir = .eq ∨
      (d.isAnti = false ∧ d.isFlow = false ∧ d.isOutput = false)) :
    processPair src dst (some d) flag deps = deps := by
  rcases h with h | ⟨ha, hf, ho⟩
  · by_cases hin : (!d.isAnti && !d.isFlow && !d.isOutput) = true
    · simp [processPair, hin]
    · simp [processPair, hin, insertDependence, h]
  · simp [processPair, ha, hf, ho]

/-- Witness for `processPair_frame`: an EQ-direction flow dependence on an
empty map. -/
theorem processPair_frame_witness :
    (OracleDep.dir ⟨true, false, false, .eq, some 2⟩ = .eq ∨
      (OracleDep.isAnti ⟨true, false, false, .eq, some 2⟩ = false ∧
       OracleDep.isFlow ⟨true, false, false, .eq, some 2⟩ = false ∧
       OracleDep.isOutput ⟨true, false, false, .eq, some 2⟩ = false)) ∧
    processPair 0 1 (some ⟨true, false, false, .eq, some 2⟩) {}
      (fun _ => none) = (fun _ => none) :=
  ⟨Or.inl rfl,
    processPair_frame 0 1 ⟨true, false, false, .eq, some 2⟩ {}
      (fun _ => none) (Or.inl rfl)⟩

/-! ## Theorems for claim C8 -/

/-- `updateKind` always re-establishes the invariant: whenever the
accumulated flags contain `UnknownDistance` the distance set was just
cleared. -/
theorem updateKind_kindInv (s : KindState) (f : Flag) (d : Option Nat) :
    kindInv (updateKind s f d) := by
  unfold kindInv updateKind
  dsimp only
  intro h
  rw [h]
  rfl

/-- `DependenceImp.update` preserves the invariant on every component. -/
theorem update_kindInv (s : DependenceImp) (dk : DepKinds) (f : Flag)
    (d : Option Nat)
    (h : kindInv s.flow ∧ kindInv s.anti ∧ kindInv s.output) :
    kindInv (s.update dk f d).flow ∧ kindInv (s.update dk f d).anti ∧
    kindInv (s.update dk f d).output := by
  refine ⟨?_, ?_, ?_⟩ <;> unfold DependenceImp.update <;> simp only
  · cases hfl : dk.flow <;> simp [hfl, h.1, updateKind_kindInv]
  · cases hfl : dk.anti <;> simp [hfl, h.2.1, updateKind_kindInv]
  · cases hfl : dk.output <;> simp [hfl, h.2.2, updateKind_kindInv]

/-- The invariant holds after folding any update sequence from any state
satisfying it. -/
theorem foldl_update_kindInv (us : List (DepKinds × Flag × Option Nat))
    (s : DependenceImp)
    (h : kindInv s.flow ∧ kindInv s.anti ∧ kindInv s.output) :
    kindInv (us.foldl (fun s u => s.update u.1 u.2.1 u.2.2) s).flow ∧
    kindInv (us.foldl (fun s u => s.update u.1 u.2.1 u.2.2) s).anti ∧
    kindInv (us.foldl (fun s u => s.update u.1 u.2.1 u.2.2) s).output := by
  induction us generalizing s with
  | nil => exact h
  | cons u us ih => exact ih _ (update_kindInv s u.1 u.2.1 u.2.2 h)

/-- C8: after any sequence of `DependenceImp::update` calls, a trait whose
flags include `UnknownDistance` has an empty distance set; moreover an
update carrying an unknown (null) distance always clears the trait's
distance set, and once the accumulated flags contain `UnknownDistance`
any further update — also one with a known distance — leaves the set
empty. -/
theorem dependence_distance_invariant
    (us : List (DepKinds × Flag × Option Nat)) :
    (kindInv (applyUpdates us).flow ∧ kindInv (applyUpdates us).anti ∧
     kindInv (applyUpdates us).output) ∧
    (∀ (s : KindState) (f : Flag), (updateKind s f none).dists = []) ∧
    (∀ (s : KindState) (f : Flag) (d : Option Nat),
      s.flags.unknownDistance = true → (updateKind s f d).dists = []) := by
  refine ⟨foldl_update_kindInv us DependenceImp.init
    ⟨fun _ => rfl, fun _ => rfl, fun _ => rfl⟩, ?_, ?_⟩
  · intro s f
    simp [updateKind, Flag.join]
  · intro s f d h
    simp [updateKind, Flag.join, h]

/-- Witness for `dependence_distance_invariant`: an unknown-distance
update followed by a known-distance one leaves the Flow distance set
empty while its flags carry `UnknownDistance`. -/
theorem dependence_distance_invariant_witness :
    (applyUpdates [(⟨true, true, true⟩, {}, none),
        (⟨true, true, true⟩, {}, some 5)]).flow.flags.unknownDistance =
      true ∧
    (applyUpdates [(⟨true, true, true⟩, {}, none),
        (⟨true, true, true⟩, {}, some 5)]).flow.dists = [] :=
  ⟨by rfl,
    (dependence_distance_invariant [(⟨true, true, true⟩, {}, none),
      (⟨true, true, true⟩, {}, some 5)]).1.1 (by rfl)⟩

/-! ## Theorems for claim C5 -/

/-- C5: for a region whose descriptor is LastPrivate (or
SecondToLastPrivate) and not already FirstPrivate, if every leaf of the
region passes the exit (respectively exit-or-latch) must-reach test and
the leaves cover the region, `checkFirstPrivate` leaves the trait and the
descriptor unchanged — FirstPrivate stays excluded; if the collected
leaves do not cover the region, the trait is narrowed with FirstPrivate
and the final descriptor includes FirstPrivate. -/
theorem checkFirstPrivate_coverage (cover : EMem → List EMem → Bool)
    (latchMust exitMust : Nat → Bool) (em : EMem) (t : Nat)
    (d : DependencyDescriptor) (hfp : d.firstPrivate = false)
    (hlp : d.lastPrivate = true ∨ d.secondToLastPrivate = true) :
    ((∀ e ∈ EMem.leaves em, leafReachTest latchMust exitMust d e = true) →
      cover em (EMem.leaves em) = true →
      checkFirstPrivate cover latchMust exitMust em t d = (t, d) ∧
      (checkFirstPrivate cover latchMust exitMust em t d).2.firstPrivate =
        false) ∧
    (cover em (defLeafs latchMust exitMust d em) = false →
      (checkFirstPrivate cover latchMust exitMust em t d).1 =
        t &&& TraitId.FirstPrivate ∧
      (checkFirstPrivate cover latchMust exitMust em t d).2.firstPrivate =
        true) := by
  have hguard :
      (d.firstPrivate || (!d.lastPrivate && !d.secondToLastPrivate)) =
        false := by
    rcases hlp with h | h <;> simp [hfp, h]
  constructor
  · intro hall hcov
    have hdl : defLeafs latchMust exitMust d em = EMem.leaves em := by
      unfold defLeafs EMem.leaves
      apply List.filter_congr
      intro x hx
      cases hleaf : x.isLeaf with
      | false => simp [hleaf]
      | true =>
        have hmem : x ∈ EMem.leaves em := List.mem_filter.mpr ⟨hx, hleaf⟩
        simp [hleaf, hall x hmem]
    constructor
    · simp [checkFirstPrivate, hguard, hdl, hcov]
    · simp [checkFirstPrivate, hguard, hdl, hcov, hfp]
  · intro hncov
    constructor
    · simp [checkFirstPrivate, hguard, hncov]
    · simp [checkFirstPrivate, hguard, hncov]

/-- Witness for `checkFirstPrivate_coverage` on a single-leaf region. -/
theorem checkFirstPrivate_coverage_witness :
    (DependencyDescriptor.firstPrivate { lastPrivate := true } = false) ∧
    (DependencyDescriptor.lastPrivate { lastPrivate := true } = true ∨
     DependencyDescriptor.secondToLastPrivate { lastPrivate := true } =
       true) ∧
    (((∀ e ∈ EMem.leaves (EMem.mk [0] []),
        leafReachTest (fun _ => true) (fun _ => true)
          { lastPrivate := true } e = true) →
      (fun (_ : EMem) (ls : List EMem) => !ls.isEmpty) (EMem.mk [0] [])
          (EMem.leaves (EMem.mk [0] [])) = true →
      checkFirstPrivate (fun _ ls => !ls.isEmpty) (fun _ => true)
          (fun _ => true) (EMem.mk [0] []) TraitId.LastPrivate
          { lastPrivate := true } =
        (TraitId.LastPrivate, { lastPrivate := true }) ∧
      (checkFirstPrivate (fun _ ls => !ls.isEmpty) (fun _ => true)
          (fun _ => true) (EMem.mk [0] []) TraitId.LastPrivate
          { lastPrivate := true }).2.firstPrivate = false) ∧
    ((fun (_ : EMem) (ls : List EMem) => !ls.isEmpty) (EMem.mk [0] [])
        (defLeafs (fun _ => true) (fun _ => true) { lastPrivate := true }
          (EMem.mk [0] [])) = false →
      (checkFirstPrivate (fun _ ls => !ls.isEmpty) (fun _ => true)
          (fun _ => true) (EMem.mk [0] []) TraitId.LastPrivate
          { lastPrivate := true }).1 =
        TraitId.LastPrivate &&& TraitId.FirstPrivate ∧
      (checkFirstPrivate (fun _ ls => !ls.isEmpty) (fun _ => true)
          (fun _ => true) (EMem.mk [0] []) TraitId.LastPrivate
          { lastPrivate := true }).2.firstPrivate = true)) :=
  ⟨rfl, Or.inl rfl,
    checkFirstPrivate_coverage (fun _ ls => !ls.isEmpty) (fun _ => true)
      (fun _ => true) (EMem.mk [0] []) TraitId.LastPrivate
      { lastPrivate := true } rfl (Or.inl rfl)⟩

/-! ## Theorems for claim C6 -/

/-- Escalating a node establishes the property at that node. -/
theorem good_escalateOne_self (m : DSMap) (i : Nat) :
    good (escalateOne m i) i := by
  intro t ht hna
  unfold escalateOne at ht
  rw [if_pos rfl] at ht
  cases hmi : m i with
  | none => rw [hmi] at ht; cases ht
  | some t0 =>
    rw [hmi] at ht
    dsimp only at ht
    by_cases h0 : t0.noAccess = false
    · rw [if_pos h0] at ht
      have h := Option.some.inj ht
      rw [← h]
      exact ⟨rfl, rfl, rfl⟩
    · rw [if_neg h0] at ht
      have h := Option.some.inj ht
      rw [← h] at hna
      exact absurd hna h0

/-- Escalating any node preserves the property elsewhere. -/
theorem good_escalateOne_pres (m : DSMap) (i k : Nat) (h : good m i) :
    good (escalateOne m k) i := by
  by_cases hik : i = k
  · subst hik; exact good_escalateOne_self m i
  · intro t ht hna
    unfold escalateOne at ht
    rw [if_neg hik] at ht
    exact h t ht hna

/-- Folding escalation over a node list preserves the property. -/
theorem good_foldl_pres (L : List ATree) (m : DSMap) (i : Nat)
    (h : good m i) :
    good (L.foldl (fun m d => escalateOne m d.idOf) m) i := by
  induction L generalizing m with
  | nil => exact h
  | cons x xs ih => exact ih _ (good_escalateOne_pres _ _ _ h)

/-- Folding escalation over a node list establishes the property at every
member. -/
theorem good_foldl_mem (L : List ATree) (m : DSMap) (D : ATree)
    (hD : D ∈ L) :
    good (L.foldl (fun m d => escalateOne m d.idOf) m) D.idOf := by
  induction L generalizing m with
  | nil => cases hD
  | cons x xs ih =>
    rcases List.mem_cons.mp hD with h | h
    · subst h
      exact good_foldl_pres xs _ _ (good_escalateOne_self m D.idOf)
    · exact ih _ h

/-- Escalating the children of a node preserves the property. -/
theorem good_childfold_pres (cs : List ATree) (m : DSMap) (i : Nat)
    (h : good m i) : good (cs.foldl escalateChild m) i := by
  induction cs generalizing m with
  | nil => exact h
  | cons c cs ih => exact ih _ (good_foldl_pres _ _ _ h)

/-- Escalating the children of a node establishes the property at every
node of every child's depth-first tree. -/
theorem good_childfold_mem (cs : List ATree) (m : DSMap) (D : ATree)
    (hD : D ∈ ATree.preorderList cs) :
    good (cs.foldl escalateChild m) D.idOf := by
  induction cs generalizing m with
  | nil => cases hD
  | cons c cs ih =>
    rw [show ATree.preorderList (c :: cs) =
      ATree.preorder c ++ ATree.preorderList cs from rfl] at hD
    rcases List.mem_append.mp hD with h | h
    · exact good_childfold_pres cs _ _ (good_foldl_mem _ _ _ h)
    · exact ih _ h

/-- Escalating a list of coverage nodes preserves the property. -/
theorem good_covfold_pres (ns : List ATree) (m : DSMap) (i : Nat)
    (h : good m i) : good (ns.foldl escalateNode m) i := by
  induction ns generalizing m with
  | nil => exact h
  | cons n ns ih => exact ih _ (good_childfold_pres _ _ _ h)

/-- C6: after the escalation loop at the end of `propagateTraits`, for
every alias node of the coverage set, every strict descendant whose
stored result is other than NoAccess has Flow, Anti and Output all set
in that result. -/
theorem escalate_descendants_dependent (m : DSMap) (coverage : List ATree)
    (N : ATree) (hN : N ∈ coverage) (D : ATree) (hD : D ∈ strictDesc N) :
    good (escalate m coverage) D.idOf := by
  unfold escalate
  induction coverage generalizing m with
  | nil => cases hN
  | cons c cs ih =>
    rcases List.mem_cons.mp hN with h | h
    · subst h
      exact good_covfold_pres cs _ _ (good_childfold_mem _ _ _ hD)
    · exact ih _ h

/-- Witness for `escalate_descendants_dependent` on a two-node tree whose
child holds an all-clear descriptor. -/
theorem escalate_descendants_dependent_witness :
    (ATree.mk 0 [ATree.mk 1 []] ∈ [ATree.mk 0 [ATree.mk 1 []]]) ∧
    (ATree.mk 1 [] ∈ strictDesc (ATree.mk 0 [ATree.mk 1 []])) ∧
    good
      (escalate
        (fun i => if i = 1 then some {} else none)
        [ATree.mk 0 [ATree.mk 1 []]])
      (ATree.idOf (ATree.mk 1 [])) :=
  ⟨List.mem_singleton.mpr rfl, List.mem_singleton.mpr rfl,
    escalate_descendants_dependent
      (fun i => if i = 1 then some {} else none)
      [ATree.mk 0 [ATree.mk 1 []]]
      (ATree.mk 0 [ATree.mk 1 []]) (List.mem_singleton.mpr rfl)
      (ATree.mk 1 []) (List.mem_singleton.mpr rfl)⟩

/-- Witness for `storeResultsCombined_no_private` at a two-entry working
list. -/
theorem storeResultsCombined_no_private_witness :
    (1 < ([TraitId.Private, TraitId.Readonly] : List Nat).length ∨
      ([] : List Nat) ≠ []) ∧
    (∀ d, storeResultsCombined [TraitId.Private, TraitId.Readonly] [] false =
        some d →
      d.isPrivate = false ∧ d.firstPrivate = false ∧ d.lastPrivate = false ∧
      d.secondToLastPrivate = false ∧ d.dynamicPrivate = false) :=
  ⟨Or.inl (by decide),
    (storeResultsCombined_no_private [TraitId.Private, TraitId.Readonly] []
      false (Or.inl (by decide))).2⟩

end TsarPrivate
